import Mathlib

/-!
Verification of the persistence and merge layer of the minha-receita
repository.  The embedding follows `db/postgres.go` and the test files of
the `db` and `transform` packages.  Parts of the repository that the
claims depend on but whose code is not among the sources (the embedded
SQL templates, the `transform` package's merge and validation helpers and
the page constructor) are modelled from the specification; each such
definition carries a doc comment starting with `Modelled from the spec`.
Go strings handled character-wise (index names, JSON paths) are embedded
as `List Char`; other strings stay `String`, with Go's `len` embedded as
`String.utf8ByteSize`.
-/

namespace MinhaReceita

/-- Error taxonomy of the loader and query layer: NotFound for lookups
with no matching row, a validation failure rejected before any mutation,
and a database-execution failure. -/
inductive DBError where
  | notFound
  | validation
  | execFailure
deriving DecidableEq, Repr

/-! ## The relational rows (companies and metadata)

The company table and the metadata table both hold `(text key, text
value)` rows keyed on the first column.  They are embedded as association
lists. -/

/-- The rows of a two-column table, in storage order. -/
abbrev Rows := List (String × String)

/-- The keys (first column) of the stored rows. -/
def keys (st : Rows) : List String := st.map Prod.fst

/-- Point lookup of the row with the given key. -/
def lookupRow : Rows → String → Option String
  | [], _ => none
  | (k0, v0) :: rest, k => if k0 = k then some v0 else lookupRow rest k

/-- Modelled from the spec: writing a row for an existing key replaces
the stored value (upsert, last write wins); a new key is appended.  The
SQL side of this behaviour lives in the embedded templates, which are not
among the sources. -/
def upsertRow : Rows → String → String → Rows
  | [], k, v => [(k, v)]
  | (k0, v0) :: rest, k, v =>
      if k0 = k then (k, v) :: rest else (k0, v0) :: upsertRow rest k v

/-- Writes a batch of `(id, json)` pairs in order, each as an upsert. -/
def applyPairs (st : Rows) (ps : List (String × String)) : Rows :=
  ps.foldl (fun s p => upsertRow s p.1 p.2) st

/-- The most recently written value for a key within one batch of pairs:
the value of the last pair of the batch carrying that key, later pairs
taking precedence. -/
def writtenLast : List (String × String) → String → Option String
  | [], _ => none
  | p :: ps, k =>
      match writtenLast ps k with
      | some v => some v
      | none => if p.1 = k then some p.2 else none

/-! ## CreateCompanies (`db/postgres.go`)

`CreateCompanies` receives `[][]string` and builds the copy rows from the
first two elements of every row (`r[0]`, `r[1]`); a shorter row is an
out-of-bounds access, embedded as `none`. -/

/-- The `(r[0], r[1])` projection of every row of the batch performed by
`CreateCompanies`; `none` embeds the out-of-bounds access on a row with
fewer than two elements. -/
def batchPairs : List (List String) → Option (List (String × String))
  | [] => some []
  | r :: rest =>
      match r with
      | a :: b :: _ => (batchPairs rest).map (fun ps => (a, b) :: ps)
      | _ => none

/-- `CreateCompanies` from `db/postgres.go`: projects each row of the
batch to its first two elements and bulk-copies the pairs into the
company table.  The copy semantics (duplicate ids tolerated, last write
wins) is modelled from the spec, the create template being absent from
the sources. -/
def CreateCompanies (st : Rows) (batch : List (List String)) : Option Rows :=
  match batchPairs batch with
  | none => none
  | some ps => some (applyPairs st ps)

/-- `GetCompany` from `db/postgres.go`: point lookup by id.  Modelled
from the spec for the SQL part (the get template is absent from the
sources): no matching row is a NotFound error. -/
def GetCompany (st : Rows) (id : String) : Except DBError String :=
  match lookupRow st id with
  | some j => Except.ok j
  | none => Except.error DBError.notFound

/-- `MetaSave` from `db/postgres.go`: rejects keys longer than 16 bytes
before touching the store, otherwise upserts the pair (the upsert itself
is modelled from the spec, the meta-save template being absent from the
sources).  Returns the new store state together with the outcome. -/
def MetaSave (st : Rows) (k v : String) : Rows × Except DBError Unit :=
  if 16 < k.utf8ByteSize then (st, Except.error DBError.validation)
  else (upsertRow st k v, Except.ok ())

/-- `MetaRead` from `db/postgres.go`: lookup of a metadata key, NotFound
when absent (the meta-read template is absent from the sources; the
lookup is modelled from the spec). -/
def MetaRead (st : Rows) (k : String) : Except DBError String :=
  match lookupRow st k with
  | some v => Except.ok v
  | none => Except.error DBError.notFound

/-! ## The partner merge (`transform` package)

The `transform` package itself is not among the sources; only its test
file is.  The record layout follows the test's construction of
`PartnerData`, the merge follows the spec. -/

/-- Modelled from the spec: a partner record; optional numeric and string
fields are explicit optionals, never sentinel values.  The field list
follows the positional construction in the `transform` package's test. -/
structure PartnerData where
  identificadorDeSocio : Option Int
  nomeSocio : String
  cnpjCpfDoSocio : String
  codigoQualificacaoSocio : Option Int
  qualificacaoSocio : Option String
  dataEntradaSociedade : Option String
  codigoPais : Option Int
  pais : Option String
  cpfRepresentanteLegal : String
  nomeRepresentanteLegal : String
  codigoQualificacaoRepresentanteLegal : Option Int
  qualificacaoRepresentanteLegal : Option String
  codigoFaixaEtaria : Option Int
  faixaEtaria : Option String
deriving DecidableEq, Repr

/-- Modelled from the spec: `mergePartners` of the `transform` package
(not among the sources).  The existing staged value is an ordered
sequence of partner records, absent meaning the empty sequence; the
incoming value is exactly one record; the result appends it.
Serialization is the identity of this embedding: the function is stated
on decoded sequences. -/
def mergePartners (existing : Option (List PartnerData)) (incoming : PartnerData) :
    List PartnerData :=
  existing.getD [] ++ [incoming]

/-- Iterated staging-store writes for one key: each sighting is merged
into the current staged value, in order.  Per-key writes are serialized
by the staging store, so any batching of the sightings is a split of
this fold. -/
def applyMerge (staged : Option (List PartnerData)) (sightings : List PartnerData) :
    Option (List PartnerData) :=
  sightings.foldl (fun st inc => some (mergePartners st inc)) staged

/-! ## Extra indexes (`db/postgres.go`)

Index names are Go strings handled character-wise; they are embedded as
`List Char`. -/

/-- `ExtraIndex` from `db/postgres.go`: a requested secondary index. -/
structure ExtraIndex where
  IsRoot : Bool
  Name : List Char
  Value : List Char
deriving DecidableEq, Repr

/-- Split at the first occurrence of the separator, the embedding of
Go's `strings.SplitN(s, sep, 2)`: `none` when the separator does not
occur (Go returns a one-element slice). -/
def splitFirst (sep : Char) : List Char → Option (List Char × List Char)
  | [] => none
  | c :: cs =>
      if c = sep then some ([], cs)
      else (splitFirst sep cs).map (fun p => (c :: p.1, p.2))

/-- `NestedPath` from `db/postgres.go`: the JSON path of an index nested
inside the partner array.  A root index or an unsplittable value is
logged and yields the empty string. -/
def NestedPath (e : ExtraIndex) : List Char :=
  if e.IsRoot then []
  else
    match splitFirst '.' e.Value with
    | none => []
    | some p => "$.".toList ++ p.1 ++ "[*].".toList ++ p.2

/-- Modelled from the spec: the JSON-path expression the extra-indexes
SQL template (embedded, not among the sources) renders for one index:
the root path for a root-level field, `NestedPath` otherwise. -/
def jsonPath (e : ExtraIndex) : List Char :=
  if e.IsRoot then "$.".toList ++ e.Value else NestedPath e

/-- The `ExtraIndex` built by the loop of `CreateExtraIndexes`: root when
the name has no dot, named `json.` followed by the request. -/
def mkExtraIndex (idx : List Char) : ExtraIndex :=
  { IsRoot := !(idx.contains '.')
    Name := "json.".toList ++ idx
    Value := idx }

/-- Modelled from the spec: `transform.ValidateIndexes` (the `transform`
package is not among the sources) rejects index names carrying unsafe
characters; a name is safe when every character is alphanumeric, an
underscore or a dot. -/
def validIndexName (s : List Char) : Bool :=
  s.all (fun c => c.isAlphanum || c = '_' || c = '.')

/-- Modelled from the spec: validation of the whole request, failing when
any requested name is unsafe. -/
def ValidateIndexes (idxs : List (List Char)) : Bool :=
  idxs.all validIndexName

/-- The state `CreateExtraIndexes` acts on: the in-memory `ExtraIndexes`
field of the connection value and the names of the expression indexes
existing in the database. -/
structure PGIndexState where
  extraIndexes : List ExtraIndex
  createdIndexes : List (List Char)
deriving DecidableEq, Repr

/-- `CreateExtraIndexes` from `db/postgres.go`: validates the requested
names, then appends the parsed specifications to the connection's
`ExtraIndexes` list, renders the extra-indexes template over the whole
list and executes the DDL.  `execOk` embeds the outcome of the
execution; the triple returned is the new state, the outcome, and the
list of specifications that reached SQL rendering (empty when validation
failed before rendering).  Index creation is idempotent, so executing
the DDL only adds the rendered names not present yet (modelled from the
spec, the template being absent from the sources). -/
def CreateExtraIndexes (p : PGIndexState) (idxs : List (List Char)) (execOk : Bool) :
    PGIndexState × Except DBError Unit × List ExtraIndex :=
  if ValidateIndexes idxs then
    let p1 : PGIndexState :=
      { p with extraIndexes := p.extraIndexes ++ idxs.map mkExtraIndex }
    if execOk then
      ({ p1 with
          createdIndexes := p1.createdIndexes ++
            ((p1.extraIndexes.map ExtraIndex.Name).filter
              (fun n => !(p1.createdIndexes.contains n))) },
        Except.ok (), p1.extraIndexes)
    else (p1, Except.error DBError.execFailure, p1.extraIndexes)
  else (p, Except.error DBError.validation, [])

/-! ## Search (`db/postgres.go`)

`Search` renders the search template, begins a transaction, disables
sequential scans on that transaction, runs the rendered statement, reads
the rows, commits (logging a commit failure without propagating it) and
builds the page.  The embedding records the sequence of database
operations together with the connection each one runs on, because the
rendered statement is executed through `p.pool.Query`, not through the
transaction. -/

/-- The decoded company document carried by one search row; its fields
are irrelevant to the claims and stay opaque. -/
structure Company where
  raw : String
deriving DecidableEq, Repr

/-- `postgresRecord` from `db/postgres.go`: one decoded search row, a
cursor value and a company document. -/
structure postgresRecord where
  cursor : Int
  company : Company
deriving DecidableEq, Repr

/-- Modelled from the spec: the page value built by `newPage` (the
`db` package file defining it is not among the sources): the list of
documents and the next cursor. -/
structure Page where
  data : List Company
  cursor : String
deriving DecidableEq, Repr

/-- Modelled from the spec: the page constructor. -/
def newPage (cs : List Company) (cur : String) : Page :=
  { data := cs, cursor := cur }

/-- One iteration of the page-building loop of `Search`: appends the
row's company and, on the last index, sets the cursor. -/
def pageStep (n : Nat) (acc : List Company × String) (ir : Nat × postgresRecord) :
    List Company × String :=
  (acc.1 ++ [ir.2.company],
   if ir.1 = n - 1 then toString ir.2.cursor else acc.2)

/-- The page built by `Search` from the collected rows: the indexed loop
appending every company and taking the cursor of the last row. -/
def searchPage (rs : List postgresRecord) : Page :=
  let r := rs.enum.foldl (pageStep rs.length) ([], "")
  newPage r.1 r.2

/-- The connection a database operation of `Search` runs on: the
dedicated transaction, or a connection taken from the pool. -/
inductive Conn where
  | tx
  | pool
deriving DecidableEq, Repr

/-- A database operation issued by `Search`, tagged with its
connection. -/
inductive DBOp where
  | beginTx
  | exec (c : Conn) (stmt : String)
  | query (c : Conn) (stmt : String)
  | commitTx
  | logCommitFailure
  | rollbackTx
deriving DecidableEq, Repr

/-- The statement `Search` executes on the transaction to disable
sequential scans for that transaction. -/
def seqScanStmt : String := "SET LOCAL enable_seqscan = off"

/-- The outcomes of the fallible steps of one `Search` invocation and
the rows the database returns. -/
structure SearchEnv where
  renderOk : Bool
  beginOk : Bool
  seqScanOk : Bool
  queryOk : Bool
  rows : List postgresRecord
  collectOk : Bool
  commitOk : Bool
deriving DecidableEq, Repr

/-- `Search` from `db/postgres.go`, as a result paired with the trace of
database operations.  The deferred rollback runs on every exit after the
transaction began, also after a commit.  The rendered statement is `s`;
rendering failures return before any database operation.  The search
statement itself runs through `p.pool.Query`, hence on a pool
connection.  A commit failure is logged and the page is built and
returned regardless (serialization of the page is not modelled; the
returned `Page` stands for its JSON). -/
def Search (env : SearchEnv) (s : String) : Except String Page × List DBOp :=
  if !env.renderOk then (Except.error "error rendering searching template", [])
  else if !env.beginOk then
    (Except.error "error starting a database transaction", [DBOp.beginTx])
  else if !env.seqScanOk then
    (Except.error "error disabling sequential scans",
     [DBOp.beginTx, DBOp.exec Conn.tx seqScanStmt, DBOp.rollbackTx])
  else if !env.queryOk then
    (Except.error "error searching",
     [DBOp.beginTx, DBOp.exec Conn.tx seqScanStmt, DBOp.query Conn.pool s,
      DBOp.rollbackTx])
  else if !env.collectOk then
    (Except.error "error reading search result",
     [DBOp.beginTx, DBOp.exec Conn.tx seqScanStmt, DBOp.query Conn.pool s,
      DBOp.rollbackTx])
  else
    (Except.ok (searchPage env.rows),
     [DBOp.beginTx, DBOp.exec Conn.tx seqScanStmt, DBOp.query Conn.pool s,
      DBOp.commitTx] ++
     (if env.commitOk then [] else [DBOp.logCommitFailure]) ++
     [DBOp.rollbackTx])

/-! ## Lemmas on the row store -/

theorem keys_cons (k0 v0 : String) (rest : Rows) :
    keys ((k0, v0) :: rest) = k0 :: keys rest := rfl

theorem keys_upsertRow (st : Rows) (k v : String) :
    keys (upsertRow st k v) = if k ∈ keys st then keys st else keys st ++ [k] := by
  induction st with
  | nil => simp [upsertRow, keys]
  | cons a rest ih =>
      obtain ⟨k0, v0⟩ := a
      by_cases h : k0 = k
      · subst h
        rw [show upsertRow ((k0, v0) :: rest) k0 v = (k0, v) :: rest by
          simp [upsertRow]]
        rw [keys_cons, keys_cons, if_pos (List.mem_cons_self k0 (keys rest))]
      · rw [show upsertRow ((k0, v0) :: rest) k v = (k0, v0) :: upsertRow rest k v by
          simp [upsertRow, h]]
        rw [keys_cons, keys_cons, ih]
        by_cases hm : k ∈ keys rest
        · rw [if_pos hm, if_pos (List.mem_cons_of_mem k0 hm)]
        · have hcond : k ∉ k0 :: keys rest := by
            simp only [List.mem_cons]
            rintro (rfl | hk)
            · exact h rfl
            · exact hm hk
          rw [if_neg hm, if_neg hcond, List.cons_append]

theorem nodup_keys_upsertRow (st : Rows) (k v : String) (h : (keys st).Nodup) :
    (keys (upsertRow st k v)).Nodup := by
  rw [keys_upsertRow]
  split
  · exact h
  · simpa [List.nodup_append] using ⟨h, by assumption⟩

theorem mem_keys_upsertRow_self (st : Rows) (k v : String) :
    k ∈ keys (upsertRow st k v) := by
  rw [keys_upsertRow]
  split
  · assumption
  · simp

theorem mem_keys_upsertRow_of_mem (st : Rows) (k v k' : String)
    (h : k' ∈ keys st) : k' ∈ keys (upsertRow st k v) := by
  rw [keys_upsertRow]
  split
  · exact h
  · simp [h]

theorem lookup_upsertRow_self (st : Rows) (k v : String) :
    lookupRow (upsertRow st k v) k = some v := by
  induction st with
  | nil => simp [upsertRow, lookupRow]
  | cons a rest ih =>
      obtain ⟨k0, v0⟩ := a
      by_cases h : k0 = k
      · simp [upsertRow, lookupRow, h]
      · simp [upsertRow, lookupRow, h, ih]

theorem lookup_upsertRow_ne (st : Rows) (k v k' : String) (h : k' ≠ k) :
    lookupRow (upsertRow st k v) k' = lookupRow st k' := by
  induction st with
  | nil => simp [upsertRow, lookupRow, Ne.symm h]
  | cons a rest ih =>
      obtain ⟨k0, v0⟩ := a
      by_cases h0 : k0 = k
      · subst h0
        simp [upsertRow, lookupRow, h, Ne.symm h]
      · by_cases h1 : k0 = k'
        · simp [upsertRow, lookupRow, h0, h1, h]
        · simp [upsertRow, lookupRow, h0, h1, h, ih]

theorem applyPairs_cons (st : Rows) (p : String × String)
    (ps : List (String × String)) :
    applyPairs st (p :: ps) = applyPairs (upsertRow st p.1 p.2) ps := rfl

theorem nodup_keys_applyPairs (ps : List (String × String)) :
    ∀ st : Rows, (keys st).Nodup → (keys (applyPairs st ps)).Nodup := by
  induction ps with
  | nil => intro st h; simpa [applyPairs] using h
  | cons p rest ih =>
      intro st h
      rw [applyPairs_cons]
      exact ih (upsertRow st p.1 p.2) (nodup_keys_upsertRow st p.1 p.2 h)

theorem mem_keys_applyPairs_of_mem (ps : List (String × String)) :
    ∀ (st : Rows) (k : String), k ∈ keys st → k ∈ keys (applyPairs st ps) := by
  induction ps with
  | nil => intro st k h; simpa [applyPairs] using h
  | cons p rest ih =>
      intro st k h
      rw [applyPairs_cons]
      exact ih (upsertRow st p.1 p.2) k (mem_keys_upsertRow_of_mem st p.1 p.2 k h)

theorem mem_keys_applyPairs_of_batch (ps : List (String × String)) :
    ∀ (st : Rows) (k : String), k ∈ ps.map Prod.fst →
      k ∈ keys (applyPairs st ps) := by
  induction ps with
  | nil => intro st k h; simp at h
  | cons p rest ih =>
      intro st k h
      rw [List.map_cons, List.mem_cons] at h
      rw [applyPairs_cons]
      rcases h with h1 | h1
      · subst h1
        exact mem_keys_applyPairs_of_mem rest (upsertRow st p.1 p.2) p.1
          (mem_keys_upsertRow_self st p.1 p.2)
      · exact ih (upsertRow st p.1 p.2) k h1

theorem lookup_applyPairs_none (ps : List (String × String)) :
    ∀ (st : Rows) (k : String), writtenLast ps k = none →
      lookupRow (applyPairs st ps) k = lookupRow st k := by
  induction ps with
  | nil => intro st k _; rfl
  | cons p rest ih =>
      intro st k h
      rw [applyPairs_cons]
      rcases hw : writtenLast rest k with _ | v'
      · rw [writtenLast, hw] at h
        have hp : p.1 ≠ k := by
          intro he
          rw [if_pos he] at h
          exact Option.noConfusion h
        rw [ih _ k hw, lookup_upsertRow_ne st p.1 p.2 k (Ne.symm hp)]
      · rw [writtenLast, hw] at h
        exact Option.noConfusion h

theorem lookup_applyPairs_some (ps : List (String × String)) :
    ∀ (st : Rows) (k v : String), writtenLast ps k = some v →
      lookupRow (applyPairs st ps) k = some v := by
  induction ps with
  | nil => intro st k v h; exact Option.noConfusion h
  | cons p rest ih =>
      intro st k v h
      rw [applyPairs_cons]
      rcases hw : writtenLast rest k with _ | v'
      · rw [writtenLast, hw] at h
        by_cases hp : p.1 = k
        · rw [if_pos hp, Option.some_inj] at h
          subst hp
          rw [lookup_applyPairs_none rest _ p.1 hw, ← h]
          exact lookup_upsertRow_self st p.1 p.2
        · rw [if_neg hp] at h
          exact Option.noConfusion h
      · rw [writtenLast, hw] at h
        rw [Option.some_inj] at h
        exact h ▸ ih _ k v' hw

theorem filter_eq_nil_of_not_mem_keys (st : Rows) (k : String)
    (h : k ∉ keys st) : st.filter (fun r => r.1 = k) = [] := by
  induction st with
  | nil => simp
  | cons a rest ih =>
      obtain ⟨k0, v0⟩ := a
      have h1 : ¬(k = k0 ∨ k ∈ keys rest) := by
        rw [keys_cons] at h
        simpa [List.mem_cons] using h
      push_neg at h1
      have hk0 : ¬(k0 = k) := fun he => h1.1 he.symm
      simp [List.filter_cons, hk0, ih h1.2]

theorem count_eq_one_of_mem (st : Rows) (k : String) (h : (keys st).Nodup)
    (hm : k ∈ keys st) : (st.filter (fun r => r.1 = k)).length = 1 := by
  induction st with
  | nil => simp [keys] at hm
  | cons a rest ih =>
      obtain ⟨k0, v0⟩ := a
      rw [keys_cons] at h hm
      have hn : k0 ∉ keys rest ∧ (keys rest).Nodup := by
        simpa [List.nodup_cons] using h
      rcases List.mem_cons.mp hm with h1 | h1
      · subst h1
        simp [List.filter_cons, filter_eq_nil_of_not_mem_keys rest k hn.1]
      · have hk0 : ¬(k0 = k) := fun he => hn.1 (he ▸ h1)
        simp [List.filter_cons, hk0, ih hn.2 h1]

/-! ## Lemmas on the batch projection -/

theorem batchPairs_eq_some (batch : List (List String))
    (h : ∀ r ∈ batch, 2 ≤ r.length) :
    batchPairs batch =
      some (batch.map (fun r => (r.getD 0 "", r.getD 1 ""))) := by
  induction batch with
  | nil => rfl
  | cons r rest ih =>
      have hr : 2 ≤ r.length := h r (List.mem_cons_self r rest)
      rcases r with _ | ⟨a, _ | ⟨b, t⟩⟩
      · simp at hr
      · simp at hr
      · rw [show batchPairs ((a :: b :: t) :: rest) =
            (batchPairs rest).map (fun ps => (a, b) :: ps) from rfl]
        rw [ih (fun q hq => h q (List.mem_cons_of_mem _ hq))]
        simp [List.getD]

theorem batchPairs_eq_none (batch : List (List String)) (r : List String)
    (hr : r ∈ batch) (h : r.length < 2) : batchPairs batch = none := by
  induction batch with
  | nil => simp at hr
  | cons q rest ih =>
      rcases List.mem_cons.mp hr with h1 | h1
      · subst h1
        rcases r with _ | ⟨a, _ | ⟨b, t⟩⟩
        · rfl
        · rfl
        · simp at h; omega
      · rcases q with _ | ⟨a, _ | ⟨b, t⟩⟩
        · rfl
        · rfl
        · rw [show batchPairs ((a :: b :: t) :: rest) =
              (batchPairs rest).map (fun ps => (a, b) :: ps) from rfl]
          rw [ih h1]
          rfl

/-! ## Lemmas on the partner merge -/

theorem applyMerge_some (sightings : List PartnerData) :
    ∀ st : List PartnerData,
      applyMerge (some st) sightings = some (st ++ sightings) := by
  induction sightings with
  | nil => intro st; simp [applyMerge]
  | cons p rest ih =>
      intro st
      rw [show applyMerge (some st) (p :: rest) =
          applyMerge (some (mergePartners (some st) p)) rest from rfl]
      rw [ih (mergePartners (some st) p)]
      simp [mergePartners]

theorem applyMerge_none_getD (sightings : List PartnerData) :
    (applyMerge none sightings).getD [] = sightings := by
  rcases sightings with _ | ⟨p, rest⟩
  · rfl
  · rw [show applyMerge none (p :: rest) =
        applyMerge (some (mergePartners none p)) rest from rfl]
    rw [applyMerge_some rest (mergePartners none p)]
    simp [mergePartners]

theorem applyMerge_append (st : Option (List PartnerData))
    (l1 l2 : List PartnerData) :
    applyMerge st (l1 ++ l2) = applyMerge (applyMerge st l1) l2 := by
  simp [applyMerge, List.foldl_append]

/-! ## Lemmas on the page-building loop -/

theorem foldl_pageStep (n : Nat) (l : List postgresRecord) :
    ∀ (i : Nat) (acc : List Company) (cur : String), i + l.length = n →
      (List.enumFrom i l).foldl (pageStep n) (acc, cur) =
        (acc ++ l.map (fun r => r.company),
         ((l.getLast?).map (fun r => toString r.cursor)).getD cur) := by
  induction l with
  | nil => intro i acc cur _; simp [List.enumFrom]
  | cons a t ih =>
      intro i acc cur h
      rcases t with _ | ⟨b, t'⟩
      · have hi : i = n - 1 := by simp at h; omega
        simp [List.enumFrom, pageStep, hi, List.getLast?]
      · have hlen : i + (t'.length + 2) = n := by simpa using h
        have hi : ¬(i = n - 1) := by omega
        rw [show List.enumFrom i (a :: b :: t') =
            (i, a) :: List.enumFrom (i + 1) (b :: t') from rfl]
        rw [List.foldl_cons]
        rw [show pageStep n (acc, cur) (i, a) = (acc ++ [a.company], cur) from by
          simp [pageStep, hi]]
        rw [ih (i + 1) (acc ++ [a.company]) cur (by simp; omega)]
        simp [List.getLast?_cons_cons]

theorem searchPage_eq (rs : List postgresRecord) :
    searchPage rs =
      newPage (rs.map (fun r => r.company))
        (((rs.getLast?).map (fun r => toString r.cursor)).getD "") := by
  unfold searchPage
  rw [show rs.enum = List.enumFrom 0 rs from rfl]
  rw [foldl_pageStep rs.length rs 0 [] "" (by simp)]
  simp

/-! ## Lemmas on index-name splitting -/

theorem splitFirst_eq_none (s : List Char) (h : s.contains '.' = false) :
    splitFirst '.' s = none := by
  induction s with
  | nil => rfl
  | cons c cs ih =>
      have hc : ¬('.' = c) ∧ cs.contains '.' = false := by
        simpa [List.contains_cons] using h
      rw [show splitFirst '.' (c :: cs) =
          if c = '.' then some ([], cs)
          else (splitFirst '.' cs).map (fun p => (c :: p.1, p.2)) from rfl]
      rw [if_neg (fun he => hc.1 he.symm), ih hc.2]
      rfl

theorem splitFirst_append (field nested : List Char)
    (h : field.contains '.' = false) :
    splitFirst '.' (field ++ '.' :: nested) = some (field, nested) := by
  induction field with
  | nil => simp [splitFirst]
  | cons c cs ih =>
      have hc : ¬('.' = c) ∧ cs.contains '.' = false := by
        simpa [List.contains_cons] using h
      rw [List.cons_append]
      rw [show splitFirst '.' (c :: (cs ++ '.' :: nested)) =
          if c = '.' then some ([], cs ++ '.' :: nested)
          else (splitFirst '.' (cs ++ '.' :: nested)).map
            (fun p => (c :: p.1, p.2)) from rfl]
      rw [if_neg (fun he => hc.1 he.symm), ih hc.2]
      rfl

theorem contains_append_dot (field nested : List Char) :
    (field ++ '.' :: nested).contains '.' = true := by
  induction field with
  | nil => simp [List.contains_cons]
  | cons c cs ih => simp [List.contains_cons, ih]

theorem mem_map_fst_of_writtenLast (ps : List (String × String)) (k : String)
    (h : (writtenLast ps k).isSome = true) : k ∈ ps.map Prod.fst := by
  induction ps with
  | nil => exact Bool.noConfusion h
  | cons p rest ih =>
      rw [writtenLast] at h
      rw [List.map_cons]
      rcases hw : writtenLast rest k with _ | v'
      · rw [hw] at h
        by_cases hp : p.1 = k
        · exact hp ▸ List.mem_cons_self p.1 (rest.map Prod.fst)
        · rw [if_neg hp] at h
          exact Bool.noConfusion h
      · exact List.mem_cons_of_mem p.1 (ih (by rw [hw]; rfl))

/-! ## The claims -/

/-- C3: for every sequence of partner sightings for one base key, applying
the partner merge in file order stages exactly that sequence, with its
length and first-observation order preserved, and splitting the calls into
batches does not change the outcome. -/
theorem mergePartners_order_stable (sightings l1 l2 : List PartnerData)
    (st : Option (List PartnerData)) :
    (applyMerge none sightings).getD [] = sightings ∧
    ((applyMerge none sightings).getD []).length = sightings.length ∧
    applyMerge st (l1 ++ l2) = applyMerge (applyMerge st l1) l2 :=
  ⟨applyMerge_none_getD sightings,
   by rw [applyMerge_none_getD],
   applyMerge_append st l1 l2⟩

/-- C2: calling `CreateCompanies` twice with an identical batch fails
neither call, and afterwards the store holds exactly one row per id of the
batch, carrying the most recently written JSON. -/
theorem createCompanies_retry_safe (st : Rows) (batch : List (List String))
    (hnodup : (keys st).Nodup) (hrows : ∀ r ∈ batch, 2 ≤ r.length) :
    ∃ ps st1 st2,
      batchPairs batch = some ps ∧
      CreateCompanies st batch = some st1 ∧
      CreateCompanies st1 batch = some st2 ∧
      ∀ k v, writtenLast ps k = some v →
        lookupRow st2 k = some v ∧
        (st2.filter (fun r => r.1 = k)).length = 1 := by
  obtain ⟨ps, hps⟩ : ∃ ps, batchPairs batch = some ps :=
    ⟨_, batchPairs_eq_some batch hrows⟩
  refine ⟨ps, applyPairs st ps, applyPairs (applyPairs st ps) ps, hps, ?_, ?_, ?_⟩
  · unfold CreateCompanies
    rw [hps]
  · unfold CreateCompanies
    rw [hps]
  · intro k v hw
    refine ⟨lookup_applyPairs_some _ _ k v hw, ?_⟩
    apply count_eq_one_of_mem
    · exact nodup_keys_applyPairs _ _ (nodup_keys_applyPairs _ st hnodup)
    · exact mem_keys_applyPairs_of_batch _ _ k
        (mem_map_fst_of_writtenLast _ k (by rw [hw]; rfl))

/-- Witness for C2 at a concrete store and batch. -/
theorem createCompanies_retry_safe_witness :
    ∃ ps st1 st2,
      batchPairs [["33683111000280", "json1"]] = some ps ∧
      CreateCompanies [] [["33683111000280", "json1"]] = some st1 ∧
      CreateCompanies st1 [["33683111000280", "json1"]] = some st2 ∧
      ∀ k v, writtenLast ps k = some v →
        lookupRow st2 k = some v ∧
        (st2.filter (fun r => r.1 = k)).length = 1 :=
  createCompanies_retry_safe [] [["33683111000280", "json1"]]
    (by simp [keys]) (by simp)

/-- C8: `CreateCompanies` reads exactly the first two elements of every
row, and succeeds exactly when every row of the batch has at least two
elements; a shorter row makes the element access out of bounds. -/
theorem createCompanies_requires_two_elements (st : Rows)
    (batch : List (List String)) :
    ((CreateCompanies st batch).isSome = true ↔ ∀ r ∈ batch, 2 ≤ r.length) ∧
    ((∀ r ∈ batch, 2 ≤ r.length) →
      batchPairs batch =
        some (batch.map (fun r => (r.getD 0 "", r.getD 1 "")))) := by
  constructor
  · constructor
    · intro hs
      by_contra hneg
      push_neg at hneg
      obtain ⟨r, hr, hlen⟩ := hneg
      unfold CreateCompanies at hs
      rw [batchPairs_eq_none batch r hr hlen] at hs
      exact Bool.noConfusion hs
    · intro h
      unfold CreateCompanies
      rw [batchPairs_eq_some batch h]
      rfl
  · exact batchPairs_eq_some batch

/-- Witness for C8 at a concrete batch with a three-element row. -/
theorem createCompanies_requires_two_elements_witness :
    batchPairs [["a", "b", "c"]] =
      some ([["a", "b", "c"]].map (fun r => (r.getD 0 "", r.getD 1 ""))) :=
  (createCompanies_requires_two_elements [] [["a", "b", "c"]]).2 (by decide)

/-- C4: `GetCompany` fails with NotFound when no row has the requested id,
and for an id loaded via `CreateCompanies` it returns the loaded JSON
unchanged. -/
theorem getCompany_notFound_or_loaded (st : Rows) (batch : List (List String))
    (id j : String) :
    (lookupRow st id = none →
      GetCompany st id = Except.error DBError.notFound) ∧
    (∀ ps st', batchPairs batch = some ps → CreateCompanies st batch = some st' →
      writtenLast ps id = some j → GetCompany st' id = Except.ok j) := by
  constructor
  · intro h
    unfold GetCompany
    rw [h]
  · intro ps st' hps hcc hw
    unfold CreateCompanies at hcc
    rw [hps, Option.some_inj] at hcc
    subst hcc
    unfold GetCompany
    rw [lookup_applyPairs_some ps st id j hw]

/-- Witness for C4 at a concrete id and JSON. -/
theorem getCompany_notFound_or_loaded_witness :
    GetCompany [] "x" = Except.error DBError.notFound ∧
    GetCompany (applyPairs [] [("33683111000280", "thejson")]) "33683111000280" =
      Except.ok "thejson" :=
  ⟨(getCompany_notFound_or_loaded [] [] "x" "j").1 rfl,
   (getCompany_notFound_or_loaded [] [["33683111000280", "thejson"]]
      "33683111000280" "thejson").2 [("33683111000280", "thejson")] _
      rfl rfl (by decide)⟩

/-- C5: `MetaSave` rejects keys longer than 16 bytes with a validation
error and leaves the store unchanged; for shorter keys it upserts, so a
later `MetaRead` of the key returns the most recently saved value. -/
theorem metaSave_key_length (st : Rows) (k v : String) :
    (16 < k.utf8ByteSize →
      MetaSave st k v = (st, Except.error DBError.validation)) ∧
    (k.utf8ByteSize ≤ 16 →
      ∃ st', MetaSave st k v = (st', Except.ok ()) ∧
        MetaRead st' k = Except.ok v) := by
  constructor
  · intro h
    unfold MetaSave
    rw [if_pos h]
  · intro h
    refine ⟨upsertRow st k v, ?_, ?_⟩
    · unfold MetaSave
      rw [if_neg (by omega)]
    · unfold MetaRead
      rw [lookup_upsertRow_self st k v]

/-- Witness for C5 at a 17-byte key and at the test's metadata pair. -/
theorem metaSave_key_length_witness :
    MetaSave [] "12345678901234567" "x" = ([], Except.error DBError.validation) ∧
    ∃ st', MetaSave [] "answer" "42" = (st', Except.ok ()) ∧
      MetaRead st' "answer" = Except.ok "42" :=
  ⟨(metaSave_key_length [] "12345678901234567" "x").1 (by decide),
   (metaSave_key_length [] "answer" "42").2 (by decide)⟩

/-- C6: `CreateExtraIndexes` validates every requested name before any
mutation: when some name is unsafe it fails with a validation error, the
connection state and the created indexes are unchanged, and nothing
reaches SQL rendering. -/
theorem createExtraIndexes_rejects_unsafe (p : PGIndexState)
    (idxs : List (List Char)) (execOk : Bool)
    (h : ∃ i ∈ idxs, validIndexName i = false) :
    CreateExtraIndexes p idxs execOk = (p, Except.error DBError.validation, []) := by
  have hv : ValidateIndexes idxs = false := by
    obtain ⟨i, hi, hbad⟩ := h
    cases hall : idxs.all validIndexName
    · exact hall
    · have := List.all_eq_true.mp hall i hi
      rw [hbad] at this
      exact Bool.noConfusion this
  unfold CreateExtraIndexes
  rw [hv]
  simp

/-- Witness for C6 at the injection attempt of the spec. -/
theorem createExtraIndexes_rejects_unsafe_witness :
    CreateExtraIndexes ⟨[], []⟩ ["bogus;drop table x".toList] true =
      (⟨[], []⟩, Except.error DBError.validation, []) :=
  createExtraIndexes_rejects_unsafe ⟨[], []⟩ ["bogus;drop table x".toList] true
    (by decide)

/-- C9: a validated call appends the parsed specifications to the
connection's `ExtraIndexes` list before executing the DDL, the list is
kept when execution fails, and a subsequent call renders all previously
requested specifications together with the new ones. -/
theorem createExtraIndexes_list_grows (p : PGIndexState)
    (idxs1 idxs2 : List (List Char))
    (h1 : ValidateIndexes idxs1 = true) (h2 : ValidateIndexes idxs2 = true) :
    (CreateExtraIndexes p idxs1 false).2.1 = Except.error DBError.execFailure ∧
    (CreateExtraIndexes p idxs1 false).1.extraIndexes =
      p.extraIndexes ++ idxs1.map mkExtraIndex ∧
    (CreateExtraIndexes (CreateExtraIndexes p idxs1 false).1 idxs2 true).2.2 =
      p.extraIndexes ++ idxs1.map mkExtraIndex ++ idxs2.map mkExtraIndex := by
  unfold CreateExtraIndexes
  rw [h1, h2]
  simp

/-- Witness for C9 at a root and a nested index request. -/
theorem createExtraIndexes_list_grows_witness :
    (CreateExtraIndexes ⟨[], []⟩ ["capital".toList] false).2.1 =
      Except.error DBError.execFailure ∧
    (CreateExtraIndexes ⟨[], []⟩ ["capital".toList] false).1.extraIndexes =
      [] ++ ["capital".toList].map mkExtraIndex ∧
    (CreateExtraIndexes (CreateExtraIndexes ⟨[], []⟩ ["capital".toList] false).1
        ["qsa.nome".toList] true).2.2 =
      [] ++ ["capital".toList].map mkExtraIndex ++
        ["qsa.nome".toList].map mkExtraIndex :=
  createExtraIndexes_list_grows ⟨[], []⟩ ["capital".toList] ["qsa.nome".toList]
    (by decide) (by decide)

/-- C1: the rendered search statement is never executed on the
transaction in which `SET LOCAL enable_seqscan = off` ran; on a
successful invocation it runs through the pool, outside that
transaction, so the claim fails on the code. -/
theorem search_statement_runs_outside_tx (env : SearchEnv) (s : String) :
    DBOp.query Conn.tx s ∉ (Search env s).2 ∧
    (env.renderOk = true → env.beginOk = true → env.seqScanOk = true →
      env.queryOk = true → env.collectOk = true →
      (Search env s).2 =
        [DBOp.beginTx, DBOp.exec Conn.tx seqScanStmt, DBOp.query Conn.pool s,
         DBOp.commitTx] ++
        (if env.commitOk then [] else [DBOp.logCommitFailure]) ++
        [DBOp.rollbackTx]) := by
  constructor
  · rcases env with ⟨r, b, sq, q, rows, c, cm⟩
    cases r <;> cases b <;> cases sq <;> cases q <;> cases c <;> cases cm <;>
      simp [Search]
  · intro h1 h2 h3 h4 h5
    simp [Search, h1, h2, h3, h4, h5]

/-- Witness for C1: a fully successful search invocation, whose trace
runs the statement on the pool connection only. -/
theorem search_statement_runs_outside_tx_witness :
    (Search ⟨true, true, true, true, [⟨1, ⟨"doc"⟩⟩], true, true⟩ "SELECT 1").2 =
      [DBOp.beginTx, DBOp.exec Conn.tx seqScanStmt,
       DBOp.query Conn.pool "SELECT 1", DBOp.commitTx, DBOp.rollbackTx] :=
  (search_statement_runs_outside_tx
    ⟨true, true, true, true, [⟨1, ⟨"doc"⟩⟩], true, true⟩ "SELECT 1").2
    rfl rfl rfl rfl rfl

/-- C10: when the rows were collected successfully, a commit failure of
the read-only transaction does not fail the search: the failure is only
logged and the page is still returned. -/
theorem search_commit_failure_only_logged (env : SearchEnv) (s : String)
    (h : env.renderOk = true ∧ env.beginOk = true ∧ env.seqScanOk = true ∧
      env.queryOk = true ∧ env.collectOk = true)
    (hc : env.commitOk = false) :
    (Search env s).1 = Except.ok (searchPage env.rows) ∧
    DBOp.logCommitFailure ∈ (Search env s).2 := by
  obtain ⟨h1, h2, h3, h4, h5⟩ := h
  constructor
  · simp [Search, h1, h2, h3, h4, h5]
  · simp [Search, h1, h2, h3, h4, h5, hc]

/-- Witness for C10 at a concrete invocation with a failing commit. -/
theorem search_commit_failure_only_logged_witness :
    (Search ⟨true, true, true, true, [⟨7, ⟨"doc"⟩⟩], true, false⟩ "SELECT 1").1 =
      Except.ok (searchPage [⟨7, ⟨"doc"⟩⟩]) ∧
    DBOp.logCommitFailure ∈
      (Search ⟨true, true, true, true, [⟨7, ⟨"doc"⟩⟩], true, false⟩ "SELECT 1").2 :=
  search_commit_failure_only_logged
    ⟨true, true, true, true, [⟨7, ⟨"doc"⟩⟩], true, false⟩ "SELECT 1"
    ⟨rfl, rfl, rfl, rfl, rfl⟩ rfl

/-- C7: the page pairs the decoded documents with the cursor of the last
row, an empty result set giving an empty page with an empty cursor; and
the JSON-path expression of a requested index name is the root path when
the name has no dot and the partner-array path when it has one. -/
theorem search_page_shape_and_json_paths (rs : List postgresRecord)
    (field nested : List Char) :
    (searchPage rs).data = rs.map (fun r => r.company) ∧
    (searchPage rs).cursor =
      ((rs.getLast?).map (fun r => toString r.cursor)).getD "" ∧
    (field.contains '.' = false →
      jsonPath (mkExtraIndex field) = "$.".toList ++ field) ∧
    (field.contains '.' = false →
      jsonPath (mkExtraIndex (field ++ '.' :: nested)) =
        "$.".toList ++ field ++ "[*].".toList ++ nested) := by
  refine ⟨?_, ?_, ?_, ?_⟩
  · rw [searchPage_eq]
    rfl
  · rw [searchPage_eq]
    rfl
  · intro h
    have hmem : ('.' : Char) ∉ field := by simpa using h
    have hroot : (mkExtraIndex field).IsRoot = true := by
      simp [mkExtraIndex, hmem]
    unfold jsonPath
    rw [hroot]
    rfl
  · intro h
    have hroot : (mkExtraIndex (field ++ '.' :: nested)).IsRoot = false := by
      simp [mkExtraIndex, contains_append_dot field nested]
    have hval : (mkExtraIndex (field ++ '.' :: nested)).Value =
        field ++ '.' :: nested := rfl
    unfold jsonPath NestedPath
    rw [hroot, hval, splitFirst_append field nested h]
    simp

/-- Witness for C7: a two-row page and the two path shapes at concrete
names. -/
theorem search_page_shape_and_json_paths_witness :
    (searchPage [⟨3, ⟨"a"⟩⟩, ⟨9, ⟨"b"⟩⟩]).data = [⟨"a"⟩, ⟨"b"⟩] ∧
    jsonPath (mkExtraIndex "capital".toList) = "$.".toList ++ "capital".toList ∧
    jsonPath (mkExtraIndex ("qsa".toList ++ '.' :: "nome".toList)) =
      "$.".toList ++ "qsa".toList ++ "[*].".toList ++ "nome".toList :=
  ⟨(search_page_shape_and_json_paths [⟨3, ⟨"a"⟩⟩, ⟨9, ⟨"b"⟩⟩] [] []).1,
   (search_page_shape_and_json_paths [] "capital".toList "nome".toList).2.2.1
     (by decide),
   (search_page_shape_and_json_paths [] "qsa".toList "nome".toList).2.2.2
     (by decide)⟩

end MinhaReceita
